import Mathlib

/-!
# Verification of the GitHubPyPI package-index core

A shallow embedding of the warehub sources (database.py, __init__.py,
generate.py, metadata.py, package.py) together with proofs about the
embedded operations.

Conventions:
* Python strings are `String`, Python ints are `Int` (sizes use `Nat`),
  `None`-able values are `Option`.
* A JSON-document table (`Database._data[name]`) is an insertion-ordered
  association list from string keys to records, mirroring a Python dict.
* Code that raises is embedded with `Except String`.
* The Python `re` library is external to the repository; it is embedded
  by a small regular-expression engine (`RE`) covering the fragment of
  the syntax the repository relies on (literal characters, the any-char
  dot, and the star/plus/question quantifiers).  `reSearch` implements
  the library search discipline - a match may start anywhere - and is
  proved equivalent to the declarative decomposition semantics `RMatch`.
-/

deriving instance DecidableEq for Except

namespace Warehub

/-- Abstract syntax of the regular-expression fragment used to embed the
Python `re` library at the repository boundary. -/
inductive RE where
  | fail : RE
  | eps : RE
  | lit : Char → RE
  | dot : RE
  | cat : RE → RE → RE
  | alt : RE → RE → RE
  | star : RE → RE
deriving DecidableEq, Repr

/-- Declarative matching semantics: `RMatch r w` holds when the word `w`
belongs to the language of `r`. -/
inductive RMatch : RE → List Char → Prop where
  | eps : RMatch RE.eps []
  | lit (c : Char) : RMatch (RE.lit c) [c]
  | dot (c : Char) : RMatch RE.dot [c]
  | catM {r s : RE} {u v : List Char} : RMatch r u → RMatch s v → RMatch (RE.cat r s) (u ++ v)
  | altL {r s : RE} {w : List Char} : RMatch r w → RMatch (RE.alt r s) w
  | altR {r s : RE} {w : List Char} : RMatch s w → RMatch (RE.alt r s) w
  | starNil {r : RE} : RMatch (RE.star r) []
  | starCons {r : RE} {u v : List Char} :
      RMatch r u → RMatch (RE.star r) v → RMatch (RE.star r) (u ++ v)

/-- Does the regular expression accept the empty word? -/
def RE.nullable : RE → Bool
  | RE.fail => false
  | RE.eps => true
  | RE.lit _ => false
  | RE.dot => false
  | RE.cat r s => r.nullable && s.nullable
  | RE.alt r s => r.nullable || s.nullable
  | RE.star _ => true

/-- Brzozowski derivative of a regular expression by one character. -/
def RE.deriv : RE → Char → RE
  | RE.fail, _ => RE.fail
  | RE.eps, _ => RE.fail
  | RE.lit c, a => if a = c then RE.eps else RE.fail
  | RE.dot, _ => RE.eps
  | RE.cat r s, a =>
      if r.nullable then RE.alt (RE.cat (r.deriv a) s) (s.deriv a)
      else RE.cat (r.deriv a) s
  | RE.alt r s, a => RE.alt (r.deriv a) (s.deriv a)
  | RE.star r, a => RE.cat (r.deriv a) (RE.star r)

/-- Executable full-word matcher by iterated derivatives. -/
def RE.rmatch : RE → List Char → Bool
  | r, [] => r.nullable
  | r, c :: w => (r.deriv c).rmatch w

theorem nullable_of_rmatch_nil {r : RE} {w : List Char} (h : RMatch r w) (hw : w = []) :
    r.nullable = true := by
  induction h with
  | eps => rfl
  | lit c => cases hw
  | dot c => cases hw
  | catM hu hv ihu ihv =>
      rcases List.append_eq_nil.mp hw with ⟨h1, h2⟩
      simp [RE.nullable, ihu h1, ihv h2]
  | altL h ih => simp [RE.nullable, ih hw]
  | altR h ih => simp [RE.nullable, ih hw]
  | starNil => rfl
  | starCons hu hv ihu ihv => rfl

theorem rmatch_nil_of_nullable : ∀ {r : RE}, r.nullable = true → RMatch r []
  | RE.fail, h => by cases h
  | RE.eps, _ => RMatch.eps
  | RE.lit _, h => by cases h
  | RE.dot, h => by cases h
  | RE.cat r s, h => by
      simp only [RE.nullable, Bool.and_eq_true] at h
      rcases h with ⟨h1, h2⟩
      exact RMatch.catM (rmatch_nil_of_nullable h1) (rmatch_nil_of_nullable h2)
  | RE.alt r s, h => by
      simp only [RE.nullable, Bool.or_eq_true] at h
      rcases h with h1 | h2
      · exact RMatch.altL (rmatch_nil_of_nullable h1)
      · exact RMatch.altR (rmatch_nil_of_nullable h2)
  | RE.star r, _ => RMatch.starNil

theorem rmatch_of_deriv : ∀ {r : RE} {a : Char} {w : List Char},
    RMatch (r.deriv a) w → RMatch r (a :: w)
  | RE.fail, _, _, h => by cases h
  | RE.eps, _, _, h => by cases h
  | RE.lit c, a, w, h => by
      by_cases hac : a = c
      · simp only [RE.deriv, if_pos hac] at h
        cases h
        subst hac
        exact RMatch.lit a
      · simp only [RE.deriv, if_neg hac] at h
        cases h
  | RE.dot, a, w, h => by
      simp only [RE.deriv] at h
      cases h
      exact RMatch.dot a
  | RE.cat r s, a, w, h => by
      cases hnr : r.nullable with
      | true =>
          rw [RE.deriv, if_pos hnr] at h
          cases h with
          | altL hc =>
              cases hc with
              | catM hu hv => exact RMatch.catM (rmatch_of_deriv hu) hv
          | altR hd =>
              exact RMatch.catM (rmatch_nil_of_nullable hnr) (rmatch_of_deriv hd)
      | false =>
          rw [RE.deriv, if_neg (by simp [hnr])] at h
          cases h with
          | catM hu hv => exact RMatch.catM (rmatch_of_deriv hu) hv
  | RE.alt r s, a, w, h => by
      cases h with
      | altL hr => exact RMatch.altL (rmatch_of_deriv hr)
      | altR hs => exact RMatch.altR (rmatch_of_deriv hs)
  | RE.star r, a, w, h => by
      cases h with
      | catM hu hv => exact RMatch.starCons (rmatch_of_deriv hu) hv

theorem deriv_of_rmatch {r : RE} {w0 : List Char} (h : RMatch r w0) :
    ∀ a w, w0 = a :: w → RMatch (r.deriv a) w := by
  induction h with
  | eps => intro a w hw; cases hw
  | lit c =>
      intro a w hw
      injection hw with h1 h2
      subst h1; subst h2
      simp only [RE.deriv, if_pos rfl]
      exact RMatch.eps
  | dot c =>
      intro a w hw
      injection hw with h1 h2
      subst h2
      simp only [RE.deriv]
      exact RMatch.eps
  | @catM r s u v hu hv ihu ihv =>
      intro a w hw
      cases u with
      | nil =>
          simp only [List.nil_append] at hw
          have hnr : r.nullable = true := nullable_of_rmatch_nil hu rfl
          simp only [RE.deriv, if_pos hnr]
          exact RMatch.altR (ihv a w hw)
      | cons x u2 =>
          rw [List.cons_append] at hw
          injection hw with h1 h2
          subst h1
          cases hnr : r.nullable with
          | true =>
              simp only [RE.deriv, if_pos hnr]
              exact RMatch.altL (h2 ▸ RMatch.catM (ihu x u2 rfl) hv)
          | false =>
              rw [RE.deriv, if_neg (by simp [hnr])]
              exact h2 ▸ RMatch.catM (ihu x u2 rfl) hv
  | altL h ih =>
      intro a w hw
      exact RMatch.altL (ih a w hw)
  | altR h ih =>
      intro a w hw
      exact RMatch.altR (ih a w hw)
  | starNil => intro a w hw; cases hw
  | @starCons r u v hu hv ihu ihv =>
      intro a w hw
      cases u with
      | nil =>
          simp only [List.nil_append] at hw
          exact ihv a w hw
      | cons x u2 =>
          rw [List.cons_append] at hw
          injection hw with h1 h2
          subst h1
          simp only [RE.deriv]
          exact h2 ▸ RMatch.catM (ihu x u2 rfl) hv

/-- The executable matcher agrees with the declarative semantics. -/
theorem rmatch_iff : ∀ (w : List Char) (r : RE), r.rmatch w = true ↔ RMatch r w := by
  intro w
  induction w with
  | nil =>
      intro r
      exact ⟨rmatch_nil_of_nullable, fun h => nullable_of_rmatch_nil h rfl⟩
  | cons c w ih =>
      intro r
      constructor
      · intro h
        exact rmatch_of_deriv ((ih (r.deriv c)).mp h)
      · intro h
        exact (ih (r.deriv c)).mpr (deriv_of_rmatch h c w rfl)

/-- The library search discipline: try to match starting at every
position, consuming any number of characters.  This embeds the behavior
of `re.Pattern.search` (a match anywhere inside the subject, not a full
match). -/
def reSearch (r : RE) (s : String) : Bool :=
  s.data.tails.any (fun t => t.inits.any (fun m => r.rmatch m))

/-- Search succeeds exactly when some contiguous segment of the
subject belongs to the language of the expression. -/
theorem reSearch_iff (r : RE) (s : String) :
    reSearch r s = true ↔
      ∃ pre mid post, s.data = pre ++ mid ++ post ∧ RMatch r mid := by
  unfold reSearch
  rw [List.any_eq_true]
  constructor
  · rintro ⟨t, ht, hany⟩
    rw [List.any_eq_true] at hany
    rcases hany with ⟨m, hm, hr⟩
    rcases (List.mem_tails t s.data).mp ht with ⟨pre, hpre⟩
    rcases (List.mem_inits m t).mp hm with ⟨post, hpost⟩
    refine ⟨pre, m, post, ?_, (rmatch_iff m r).mp hr⟩
    rw [List.append_assoc, hpost, hpre]
  · rintro ⟨pre, mid, post, hs, hm⟩
    refine ⟨mid ++ post, ?_, ?_⟩
    · exact (List.mem_tails _ _).mpr ⟨pre, by rw [← List.append_assoc, ← hs]⟩
    · rw [List.any_eq_true]
      exact ⟨mid, (List.mem_inits _ _).mpr ⟨post, rfl⟩, (rmatch_iff mid r).mpr hm⟩

/-- Regular-expression metacharacters of the Python syntax that are not
part of the embedded fragment (plus the quantifiers, which are handled
by the parser when they follow an atom). -/
def reMeta : List Char := ['*', '+', '?', '\\', '^', '$', '{', '}', '[', ']', '(', ')', '|']

/-- One pattern character as an atom: the any-character dot, or an
ordinary literal character.  Metacharacters outside the embedded
fragment make compilation fail. -/
def charAtom (c : Char) : Option RE :=
  if c = '.' then some RE.dot
  else if c ∈ reMeta then none
  else some (RE.lit c)

/-- Parser for the embedded fragment of the Python pattern syntax:
a sequence of atoms, each optionally followed by one quantifier.
A leading quantifier (nothing to repeat) or a doubled quantifier
(multiple repeat) fails, as it does in the library. -/
def parseRE : List Char → Option RE
  | [] => some RE.eps
  | c :: rest =>
    (charAtom c).bind (fun a =>
      match rest with
      | q :: rest2 =>
        if q = '*' then (parseRE rest2).map (RE.cat (RE.star a))
        else if q = '+' then (parseRE rest2).map (RE.cat (RE.cat a (RE.star a)))
        else if q = '?' then (parseRE rest2).map (RE.cat (RE.alt a RE.eps))
        else (parseRE (q :: rest2)).map (RE.cat a)
      | [] => some (RE.cat a RE.eps))

/-- Compile a pattern string, embedding `re.compile` on the supported
fragment: `some` is a successful compilation, `none` a `re.error`. -/
def parsePat (s : String) : Option RE :=
  parseRE s.data

/-! ## Scalar values of record fields (database.py)

Record field values that take part in comparisons are Python scalars;
the repository compares string and integer fields. -/

/-- A Python scalar value stored in a record field. -/
inductive Val where
  | int : Int → Val
  | str : String → Val
deriving DecidableEq, Repr

/-- Python `==` on scalars: values of different types are unequal
without raising. -/
def valEq : Val → Val → Bool
  | Val.int n, Val.int m => n == m
  | Val.str s, Val.str t => s == t
  | _, _ => false

/-- Executable lexicographic comparison of character lists: the Python
string ordering (code-point by code-point, a strict proper initial
segment is smaller). -/
def charListLt : List Char → List Char → Bool
  | [], [] => false
  | [], _ :: _ => true
  | _ :: _, [] => false
  | a :: as, b :: bs =>
      if a < b then true
      else if b < a then false
      else charListLt as bs

/-- Lemma: `charListLt` decides the lexicographic list order. -/
theorem charListLt_iff : ∀ as bs : List Char, charListLt as bs = true ↔ as < bs := by
  intro as
  induction as with
  | nil =>
      intro bs
      cases bs with
      | nil =>
          constructor
          · intro h; cases h
          · intro h; cases h
      | cons b bs =>
          constructor
          · intro h; exact List.Lex.nil
          · intro h; rfl
  | cons a as ih =>
      intro bs
      cases bs with
      | nil =>
          constructor
          · intro h; cases h
          · intro h; cases h
      | cons b bs =>
          by_cases hab : a < b
          · simp only [charListLt, if_pos hab]
            exact ⟨fun _ => List.Lex.rel hab, fun _ => trivial⟩
          · by_cases hba : b < a
            · simp only [charListLt, if_neg hab, if_pos hba]
              constructor
              · intro h; cases h
              · intro h
                cases h with
                | cons h3 => exact absurd hba (lt_irrefl a)
                | rel h3 => exact absurd h3 hab
            · have heq : b = a := le_antisymm (le_of_not_lt hab) (le_of_not_lt hba)
              subst heq
              simp only [charListLt, if_neg hab, if_neg hba]
              rw [ih bs]
              constructor
              · intro h; exact List.Lex.cons h
              · intro h
                cases h with
                | cons h3 => exact h3
                | rel h3 => exact absurd h3 hab

/-- Executable Python string `<`. -/
def strLtB (a b : String) : Bool := charListLt a.data b.data

/-- Executable Python string `<=` (in the linear order, `a <= b` is
exactly `not (b < a)`). -/
def strLeB (a b : String) : Bool := !strLtB b a

/-- Lemma: `strLtB` agrees with the string order. -/
theorem strLtB_iff (a b : String) : strLtB a b = true ↔ a < b := by
  rw [strLtB, charListLt_iff a.data b.data]
  exact (String.lt_iff_toList_lt).symm

/-- Lemma: `strLeB` agrees with the string order. -/
theorem strLeB_iff (a b : String) : strLeB a b = true ↔ a ≤ b := by
  rw [strLeB, Bool.not_eq_true', Bool.eq_false_iff]
  constructor
  · intro h
    by_contra hle
    exact h ((strLtB_iff b a).mpr (lt_of_not_ge hle))
  · intro h hlt
    exact absurd ((strLtB_iff b a).mp hlt) (not_lt_of_ge h)

/-- Python `<` on scalars: comparing an int with a str raises
`TypeError`. -/
def valLt : Val → Val → Except String Bool
  | Val.int n, Val.int m => Except.ok (decide (n < m))
  | Val.str s, Val.str t => Except.ok (strLtB s t)
  | _, _ => Except.error "TypeError: unorderable types"

/-- Python `<=` on scalars. -/
def valLe : Val → Val → Except String Bool
  | Val.int n, Val.int m => Except.ok (decide (n ≤ m))
  | Val.str s, Val.str t => Except.ok (strLeB s t)
  | _, _ => Except.error "TypeError: unorderable types"

/-- Python `>` on scalars. -/
def valGt : Val → Val → Except String Bool
  | Val.int n, Val.int m => Except.ok (decide (m < n))
  | Val.str s, Val.str t => Except.ok (strLtB t s)
  | _, _ => Except.error "TypeError: unorderable types"

/-- Python `>=` on scalars. -/
def valGe : Val → Val → Except String Bool
  | Val.int n, Val.int m => Except.ok (decide (m ≤ n))
  | Val.str s, Val.str t => Except.ok (strLeB t s)
  | _, _ => Except.error "TypeError: unorderable types"

/-- Compile the operand, embedding `re.compile`: a non-string operand raises
`TypeError`, an invalid pattern raises `re.error`; both are `none`. -/
def reCompile : Val → Option RE
  | Val.str s => parsePat s
  | Val.int _ => none

namespace TableAttr

/-- Embeds `TableAttr.__lt__`: plain value comparison of the field value with
the operand (database.py line 44). -/
def ltCmp (other value : Val) : Except String Bool := valLt value other

/-- Embeds `TableAttr.__le__` (database.py line 47). -/
def leCmp (other value : Val) : Except String Bool := valLe value other

/-- Embeds `TableAttr.__eq__` (database.py lines 50-57): first try to compile
the operand as a pattern; on success the predicate is a pattern search
inside the field value, on `re.error` or `TypeError` it falls back to
exact value comparison.  Searching inside a non-string field value
raises `TypeError` in the library. -/
def eqCmp (other value : Val) : Except String Bool :=
  match reCompile other with
  | some pat =>
      match value with
      | Val.str s => Except.ok (reSearch pat s)
      | Val.int _ => Except.error "TypeError: expected string or bytes-like object"
  | none => Except.ok (valEq value other)

/-- Embeds `TableAttr.__ne__` (database.py lines 59-66): the negated form of
the same regex-first discipline. -/
def neCmp (other value : Val) : Except String Bool :=
  match reCompile other with
  | some pat =>
      match value with
      | Val.str s => Except.ok (!reSearch pat s)
      | Val.int _ => Except.error "TypeError: expected string or bytes-like object"
  | none => Except.ok (!valEq value other)

/-- Embeds `TableAttr.__gt__` (database.py line 68). -/
def gtCmp (other value : Val) : Except String Bool := valGt value other

/-- Embeds `TableAttr.__ge__` (database.py line 71). -/
def geCmp (other value : Val) : Except String Bool := valGe value other

end TableAttr

/-- The string-to-string instance of the equality predicate, used when a
string field is compared with a string operand (the only comparison the
ingestion pipeline performs on names and versions).  It never raises. -/
def eqCmpStr (other value : String) : Bool :=
  match parsePat other with
  | some pat => reSearch pat value
  | none => value == other

theorem eqCmp_str_str (other value : String) :
    TableAttr.eqCmp (Val.str other) (Val.str value) = Except.ok (eqCmpStr other value) := by
  unfold TableAttr.eqCmp eqCmpStr reCompile
  cases h : parsePat other with
  | none => simp [h, valEq]
  | some pat => simp [h]

/-! ## Decimal string keys (`str(id)` in database.py)

Table keys in the JSON document are the decimal representations of
record ids.  `pyStr` embeds the Python `str` builtin on non-negative
integers; it is proved injective so that the id-assignment loop of
`Database.put` can be shown to terminate on a fresh key. -/

/-- Digit characters of the decimal representation, most significant
first; structural recursion on a fuel argument that bounds the number
of digits. -/
def pyStrAux : Nat → Nat → List Char
  | 0, _ => []
  | fuel + 1, n =>
      if n = 0 then []
      else pyStrAux fuel (n / 10) ++ [Nat.digitChar (n % 10)]

/-- The Python `str` builtin on a non-negative integer. -/
def pyStr (n : Nat) : String :=
  if n = 0 then "0" else String.mk (pyStrAux n n)

/-- Decimal value of a digit string, used as a left inverse witness for
injectivity of `pyStr`. -/
def decVal (l : List Char) : Nat :=
  l.foldl (fun a c => 10 * a + (c.toNat - 48)) 0

theorem decVal_append_digit (l : List Char) (c : Char) :
    decVal (l ++ [c]) = 10 * decVal l + (c.toNat - 48) := by
  unfold decVal
  rw [List.foldl_append]
  rfl

theorem digit_roundtrip {d : Nat} (hd : d < 10) :
    (Nat.digitChar d).toNat - 48 = d := by
  interval_cases d <;> rfl

theorem decVal_pyStrAux : ∀ fuel n, n ≤ fuel → decVal (pyStrAux fuel n) = n := by
  intro fuel
  induction fuel using Nat.strong_induction_on with
  | _ fuel ih =>
    intro n hn
    match fuel with
    | 0 =>
        have : n = 0 := Nat.le_zero.mp hn
        subst this
        rfl
    | f + 1 =>
        by_cases h0 : n = 0
        · subst h0
          simp [pyStrAux, decVal]
        · rw [pyStrAux, if_neg h0, decVal_append_digit,
            digit_roundtrip (Nat.mod_lt n (by norm_num))]
          have hdiv : n / 10 < n := Nat.div_lt_self (Nat.pos_of_ne_zero h0) (by norm_num)
          have hrec : n / 10 ≤ f := Nat.lt_succ_iff.mp (Nat.lt_of_lt_of_le hdiv hn)
          rw [ih f (Nat.lt_succ_self f) (n / 10) hrec]
          exact Nat.div_add_mod n 10

theorem decVal_pyStr_data (n : Nat) : decVal (pyStr n).data = n := by
  unfold pyStr
  by_cases h0 : n = 0
  · subst h0; rfl
  · rw [if_neg h0]
    exact decVal_pyStrAux n n (Nat.le_refl n)

/-- Lemma: `pyStr` is injective, so distinct ids get distinct decimal keys. -/
theorem pyStr_injective : Function.Injective pyStr := by
  intro m n h
  have hm := decVal_pyStr_data m
  have hn := decVal_pyStr_data n
  rw [h] at hm
  exact hm.symm.trans hn

/-! ## Tables of the JSON document (database.py)

`Database._data[table_name]` is a JSON object: an insertion-ordered
mapping from decimal string keys to records.  It is embedded as an
association list; `dictInsert` reproduces Python dict assignment
(update in place when the key exists, append otherwise). -/

/-- One table of the store: insertion-ordered string-keyed records. -/
abbrev Table (α : Type) : Type := List (String × α)

/-- The key list of a table, in insertion order. -/
def keys {α : Type} (tbl : Table α) : List String :=
  tbl.map Prod.fst

/-- Python dict item access returning `None` when absent. -/
def dictGet {α : Type} : Table α → String → Option α
  | [], _ => none
  | (k2, v) :: rest, k => if k2 = k then some v else dictGet rest k

/-- Python dict assignment `d[k] = v`. -/
def dictInsert {α : Type} (tbl : Table α) (k : String) (v : α) : Table α :=
  if k ∈ keys tbl then tbl.map (fun kv => if kv.1 = k then (k, v) else kv)
  else tbl ++ [(k, v)]

/-- The id-assignment loop of `Database.put` (database.py lines
194-196): starting from 0, increment while the decimal key is taken.
The loop can run at most `length + 1` times before hitting a free key,
which the fuel argument makes structural. -/
def freshIdAux (ks : List String) : Nat → Nat → Nat
  | 0, id => id
  | fuel + 1, id => if pyStr id ∈ ks then freshIdAux ks fuel (id + 1) else id

/-- The id assigned to a fresh record inserted into `tbl`. -/
def freshId {α : Type} (tbl : Table α) : Nat :=
  freshIdAux (keys tbl) (tbl.length + 1) 0

theorem freshIdAux_spec (ks : List String) :
    ∀ fuel start, (∃ j, start ≤ j ∧ j < start + fuel ∧ pyStr j ∉ ks) →
      pyStr (freshIdAux ks fuel start) ∉ ks ∧ start ≤ freshIdAux ks fuel start ∧
        ∀ m, start ≤ m → m < freshIdAux ks fuel start → pyStr m ∈ ks := by
  intro fuel
  induction fuel with
  | zero =>
      rintro start ⟨j, hj1, hj2, hj3⟩
      omega
  | succ f ih =>
      rintro start ⟨j, hj1, hj2, hfree⟩
      by_cases hs : pyStr start ∈ ks
      · have hne : j ≠ start := fun h => hfree (h ▸ hs)
        have hrec := ih (start + 1) ⟨j, by omega, by omega, hfree⟩
        rw [freshIdAux, if_pos hs]
        refine ⟨hrec.1, by omega, fun m hm1 hm2 => ?_⟩
        by_cases hm : m = start
        · exact hm ▸ hs
        · exact hrec.2.2 m (by omega) hm2
      · rw [freshIdAux, if_neg hs]
        exact ⟨hs, Nat.le_refl start, fun m hm1 hm2 => by omega⟩

/-- Pigeonhole: among the ids `0, ..., length`, at least one decimal
key is not in the key list. -/
theorem exists_fresh_key (ks : List String) :
    ∃ j, j ≤ ks.length ∧ pyStr j ∉ ks := by
  by_contra hcon
  push_neg at hcon
  have hsub : (Finset.range (ks.length + 1)).image pyStr ⊆ ks.toFinset := by
    intro s hs
    rcases Finset.mem_image.mp hs with ⟨j, hj, rfl⟩
    exact List.mem_toFinset.mpr (hcon j (Nat.lt_succ_iff.mp (Finset.mem_range.mp hj)))
  have hcard : ks.length + 1 ≤ ks.toFinset.card := by
    calc ks.length + 1 = (Finset.range (ks.length + 1)).card := (Finset.card_range _).symm
      _ = ((Finset.range (ks.length + 1)).image pyStr).card :=
          (Finset.card_image_of_injective _ pyStr_injective).symm
      _ ≤ ks.toFinset.card := Finset.card_le_card hsub
  have hle : ks.toFinset.card ≤ ks.length := ks.toFinset_card_le
  omega

/-- The assigned id has a free decimal key, and the decimal key of
every smaller id is taken. -/
theorem freshId_spec {α : Type} (tbl : Table α) :
    pyStr (freshId tbl) ∉ keys tbl ∧ ∀ m < freshId tbl, pyStr m ∈ keys tbl := by
  obtain ⟨j, hj, hfree⟩ := exists_fresh_key (keys tbl)
  have hlen : (keys tbl).length = tbl.length := List.length_map tbl Prod.fst
  have h := freshIdAux_spec (keys tbl) (tbl.length + 1) 0 ⟨j, Nat.zero_le j, by omega, hfree⟩
  exact ⟨h.1, fun m hm => h.2.2 m (Nat.zero_le m) hm⟩

theorem dictInsert_fresh {α : Type} {tbl : Table α} {k : String} {v : α}
    (h : k ∉ keys tbl) : dictInsert tbl k v = tbl ++ [(k, v)] :=
  if_neg h

theorem dictGet_map_update {α : Type} (k : String) (v : α) :
    ∀ tbl : Table α, k ∈ keys tbl →
      dictGet (tbl.map (fun kv => if kv.1 = k then (k, v) else kv)) k = some v := by
  intro tbl
  induction tbl with
  | nil => intro h; cases h
  | cons kv rest ih =>
      obtain ⟨k2, w⟩ := kv
      intro hk
      by_cases h2 : k2 = k
      · subst h2
        simp only [List.map_cons, if_pos]
        simp [dictGet]
      · have hmem : k ∈ keys rest := by
          rcases List.mem_map.mp hk with ⟨kv2, hmem, hfst⟩
          rcases List.mem_cons.mp hmem with h3 | h3
          · exact absurd (by rw [h3] at hfst; exact hfst) h2
          · exact List.mem_map.mpr ⟨kv2, h3, hfst⟩
        simp only [List.map_cons]
        rw [if_neg h2]
        rw [show dictGet ((k2, w) :: List.map (fun kv => if kv.1 = k then (k, v) else kv) rest) k =
              if k2 = k then some w
              else dictGet (List.map (fun kv => if kv.1 = k then (k, v) else kv) rest) k from rfl]
        rw [if_neg h2]
        exact ih hmem

theorem dictGet_insert_self {α : Type} (tbl : Table α) (k : String) (v : α) :
    dictGet (dictInsert tbl k v) k = some v := by
  by_cases hk : k ∈ keys tbl
  · rw [dictInsert, if_pos hk]
    exact dictGet_map_update k v tbl hk
  · rw [dictInsert_fresh hk]
    induction tbl with
    | nil => simp [dictGet]
    | cons kv rest ih =>
        have hne : kv.1 ≠ k := by
          intro h2
          exact hk (List.mem_map.mpr ⟨kv, List.mem_cons_self kv rest, h2⟩)
        have hk2 : k ∉ keys rest := fun h2 =>
          hk (List.mem_map.mpr (by rcases List.mem_map.mp h2 with ⟨kv2, hm, hf⟩; exact ⟨kv2, List.mem_cons_of_mem kv hm, hf⟩))
        simp only [List.cons_append, dictGet, if_neg hne]
        exact ih hk2

namespace Database

/-- Embeds `Database.get(table, where)` (database.py lines 142-159): iterate
the table and keep the entries the predicate accepts, each hydrated
together with its key. -/
def get {α : Type} (tbl : Table α) (pred : α → Bool) : Table α :=
  tbl.filter (fun kv => pred kv.2)

/-- Embeds `Database.put(table, entry)` for one entry (database.py lines
192-198): a record with unset id (negative) gets the first free
decimal key counting from 0; the record field map is stored under the
decimal string of its id. -/
def put {α : Type} (tbl : Table α) (eid : Int) (entry : α) : Table α × Int :=
  if eid < 0 then
    let id := freshId tbl
    (dictInsert tbl (pyStr id) entry, (id : Int))
  else (dictInsert tbl (pyStr eid.toNat) entry, eid)

end Database

/-! ## Records (field maps stored in the tables)

The Table subclasses are reconstructed from their construction and use
sites in `__init__.py` and `generate.py`; only the fields those modules
read or write appear. -/

/-- A Project record: `Project(name=..., created=..., documentation=...,
total_size=...)` in `make_package`. -/
structure ProjectR where
  name : String
  created : String
  documentation : String
  total_size : Nat
deriving DecidableEq, Repr

/-- A File record, as built in `make_package` (steps 6-7). -/
structure FileR where
  release_id : Int
  name : String
  path : String
  python_version : Option String
  package_type : String
  comment_text : Option String
  size : Nat
  has_signature : Bool
  md5_digest : Option String
  sha256_digest : Option String
  blake2_256_digest : Option String
  upload_time : String
deriving DecidableEq, Repr

/-- A hydrated Release record as the generator reads it: its id, owning
project id, version string and yanked flag. -/
structure ReleaseR where
  id : Int
  project_id : Int
  version : String
  yanked : Bool
deriving DecidableEq, Repr

/-! ## Ingestion orchestrator (`make_package` in __init__.py) -/

/-- 100 MB per-file ceiling (`MAX_FILE_SIZE`). -/
def MAX_FILE_SIZE : Nat := 100 * (1024 * 1024)

/-- 10 GB per-project ceiling (`MAX_PROJECT_SIZE`). -/
def MAX_PROJECT_SIZE : Nat := 10 * (1024 * 1024 * 1024)

/-- The Project records matched while resolving a package name:
`Database.get(Project, where=Project.name == package.name)`
(__init__.py line 197).  The where-predicate is `TableAttr.__eq__`
applied to two strings, which `eqCmp_str_str` shows equals
`eqCmpStr`. -/
def matchedProjects (tbl : Table ProjectR) (pkgName : String) : Table ProjectR :=
  Database.get tbl (fun p => eqCmpStr pkgName p.name)

/-- Project resolution in `make_package` (__init__.py lines 197-209):
zero matches create and insert a fresh Project with `total_size` 0, more
than one is a fatal error, exactly one is reused.  The result carries
the resolved record key. -/
def resolveProject (tbl : Table ProjectR) (pkgName now : String) :
    Except String (Table ProjectR × String) :=
  let projects := matchedProjects tbl pkgName
  if projects.length = 0 then
    let project : ProjectR := { name := pkgName, created := now, documentation := "", total_size := 0 }
    let res := Database.put tbl (-1) project
    Except.ok (res.1, pyStr res.2.toNat)
  else if projects.length > 1 then
    Except.error ("Multiple Projects found with name " ++ pkgName)
  else
    match projects with
    | kv :: _ => Except.ok (tbl, kv.1)
    | [] => Except.error "unreachable"

/-- Store state touched by ingestion steps 6-8: the project and file
tables plus the list of artifact paths the bytes have been copied to
(`shutil.copy` targets). -/
structure IngestStore where
  projects : Table ProjectR
  files : Table FileR
  copied : List String
deriving DecidableEq, Repr

/-- Steps 6-8 of `make_package` (__init__.py lines 289-312): insert the
File record (fresh id), copy the artifact bytes to `file.path`, add the
file size to the stored project `total_size` field (the hydrated project is a live
view over the stored field map, so the store sees the update), then
raise if the new total exceeds the per-project ceiling.  The mutated
store is returned alongside the outcome because a raise does not undo
the mutations. -/
def ingestFileTail (st : IngestStore) (projectKey : String) (f : FileR) :
    IngestStore × Except String Unit :=
  let files2 := (Database.put st.files (-1) f).1
  let st2 : IngestStore := { st with files := files2, copied := st.copied ++ [f.path] }
  match dictGet st2.projects projectKey with
  | none => (st2, Except.error "KeyError")
  | some p =>
      let p2 : ProjectR := { p with total_size := p.total_size + f.size }
      let st3 : IngestStore := { st2 with projects := dictInsert st2.projects projectKey p2 }
      if p2.total_size > MAX_PROJECT_SIZE then
        (st3, Except.error "Project is now too large")
      else (st3, Except.ok ())

/-! ## Site generator (generate.py) -/

/-- Store state the generator reads: hydrated Release and File
records. -/
structure GenStore where
  releases : List ReleaseR
  files : List FileR
deriving DecidableEq, Repr

/-- Embeds `Database.get(Release, where=Release.project_id == project.id)`: the
operand is an int, so `re.compile` raises `TypeError` and the equality
predicate falls back to exact comparison (see `eqCmp` at
`reCompile (Val.int pid) = none`). -/
def releasesOf (st : GenStore) (pid : Int) : List ReleaseR :=
  st.releases.filter (fun r => r.project_id == pid)

/-- Embeds `Database.get(File, where=File.release_id == release.id)`; exact
comparison for the same reason. -/
def filesOf (st : GenStore) (rid : Int) : List FileR :=
  st.files.filter (fun f => f.release_id == rid)

/-- The latest-release fold of `generate_pages` (generate.py lines
167-170): keep the release whose `version` string is greater under
plain string comparison. -/
def latestFold (cur : ReleaseR) : List ReleaseR → ReleaseR
  | [] => cur
  | r :: rest => latestFold (if strLtB cur.version r.version then r else cur) rest

/-- The `generate_pages` latest selection: seeded with `releases[0]` and
folded over the whole list (the seed is compared against itself,
harmlessly). -/
def pagesLatest : List ReleaseR → Option ReleaseR
  | [] => none
  | r0 :: rest => some (latestFold r0 (r0 :: rest))

/-- The latest-release fold of `generate_json` (generate.py lines
331-337): seeded with `None` and considering only non-yanked
releases. -/
def jsonLatestFold (acc : Option ReleaseR) : List ReleaseR → Option ReleaseR
  | [] => acc
  | r :: rest =>
      jsonLatestFold
        (if r.yanked then acc
         else
           match acc with
           | none => some r
           | some l => if strLtB l.version r.version then some r else some l)
        rest

/-- The `generate_json` latest selection. -/
def jsonLatest (rs : List ReleaseR) : Option ReleaseR :=
  jsonLatestFold none rs

/-- The download-link names on the simple-index page of a project
(generate.py lines 229-233): for each release, skipping yanked ones,
every file of that release. -/
def simpleFileLinks (st : GenStore) (pid : Int) : List String :=
  (releasesOf st pid).flatMap
    (fun r => if r.yanked then [] else (filesOf st r.id).map (fun f => f.name))

/-- The `releases` object of `create_json` (generate.py lines 256-281):
a dict from every version of the project - yanked or not - to the
file list of that release. -/
def jsonReleasesMap (st : GenStore) (pid : Int) : Table (List FileR) :=
  (releasesOf st pid).foldl (fun m r => dictInsert m r.version (filesOf st r.id)) []

/-! ## Metadata validator (metadata.py)

The embedding covers the `MetadataForm` fields the filetype and
cross-field rules read; the remaining fields carry independent
validators that cannot mask these rules (a failure anywhere rejects the
form). -/

/-- The fields of `MetadataForm` involved in the filetype allow-list and
the `__post_init__` cross-field rules. -/
structure MetadataFormCore where
  pyversion : Option String
  filetype : String
  md5_digest : Option String
  sha256_digest : Option String
  blake2_256_digest : Option String
deriving DecidableEq, Repr

/-- Python falsiness of an optional string: `None` or the empty
string. -/
def isBlank : Option String → Bool
  | none => true
  | some s => s == ""

/-- The `AnyOf` allow-list on the `filetype` field (metadata.py lines
374-378). -/
def filetypeAllowList : List String := ["bdist_egg", "bdist_wheel", "sdist"]

/-- The filetype field validator: reject any package type outside the
allow-list. -/
def validateFiletype (v : String) : Except String Unit :=
  if v ∈ filetypeAllowList then Except.ok ()
  else Except.error "Use a known file type."

/-- Embeds the digest pattern of metadata.py lines 390-395: 64
characters, each a hex digit in either case (the pattern is anchored on
both sides and compiled case-insensitively). -/
def hexDigest64 (s : String) : Bool :=
  s.length == 64 &&
    s.data.all (fun c => c.isDigit || ('a' ≤ c && c ≤ 'f') || ('A' ≤ c && c ≤ 'F'))

/-- A present-but-invalid optional digest fails its field validator;
a missing optional value short-circuits its validator chain. -/
def validateDigestField (msg : String) : Option String → Except String Unit
  | none => Except.ok ()
  | some s => if hexDigest64 s then Except.ok () else Except.error msg

/-- The sdist tag rule (metadata.py lines 493-497): fill in `source`
when the tag is blank, reject any other tag value. -/
def pyversionStep (m : MetadataFormCore) : Except String MetadataFormCore :=
  if m.filetype = "sdist" then
    if isBlank m.pyversion then Except.ok { m with pyversion := some "source" }
    else if m.pyversion ≠ some "source" then
      Except.error "Use source as Python version for an sdist."
    else Except.ok m
  else Except.ok m

/-- The digest rule (metadata.py lines 499-501): at least one of the
MD5 or SHA-256 digests must be present. -/
def digestPresentCheck (m2 : MetadataFormCore) : Except String MetadataFormCore :=
  if isBlank m2.md5_digest = true ∧ isBlank m2.sha256_digest = true then
    Except.error "Include at least one message digest."
  else Except.ok m2

/-- The cross-field tail of `MetadataForm.__post_init__` (metadata.py
lines 488-501): non-source distributions must carry a python-version
tag; then the sdist tag rule, then the digest-present rule.  Returns
the form with the possibly auto-filled tag. -/
def postInitCross (m : MetadataFormCore) : Except String MetadataFormCore :=
  if m.filetype ≠ "" ∧ m.filetype ≠ "sdist" ∧ isBlank m.pyversion then
    Except.error "Python version is required for binary distribution uploads."
  else
    match pyversionStep m with
    | Except.error e => Except.error e
    | Except.ok m2 => digestPresentCheck m2

/-- Field validation (declaration order) followed by the cross-field
rules, restricted to the modelled fields. -/
def validateFormCore (m : MetadataFormCore) : Except String MetadataFormCore :=
  match validateFiletype m.filetype with
  | Except.error e => Except.error e
  | Except.ok () =>
      match validateDigestField "Use a valid, hex-encoded, SHA256 message digest." m.sha256_digest with
      | Except.error e => Except.error e
      | Except.ok () =>
          match validateDigestField "Use a valid, hex-encoded, BLAKE2 message digest." m.blake2_256_digest with
          | Except.error e => Except.error e
          | Except.ok () => postInitCross m

/-! ## Distribution inspector (package.py) -/

/-- Embeds `DIST_EXTENSIONS` (package.py lines 66-73): filename suffix to
package type, tried in declaration order. -/
def DIST_EXTENSIONS : List (String × String) :=
  [(".whl", "bdist_wheel"), (".exe", "bdist_wininst"), (".egg", "bdist_egg"),
   (".tar.bz2", "sdist"), (".tar.gz", "sdist"), (".zip", "sdist")]

/-- Python `str.endswith`, executed over the character lists. -/
def strEndsWith (s suffixStr : String) : Bool :=
  suffixStr.data.isSuffixOf s.data

/-- The suffix-matching loop of `Package.__init__` (package.py lines
110-120): the first extension the filename ends with selects the
package type; no match is a hard rejection (`none`). -/
def distFileType (fname : String) : Option String :=
  (DIST_EXTENSIONS.find? (fun p => strEndsWith fname p.1)).map Prod.snd

/-- The key set of `DIST_VERSION` (package.py lines 75-87): the formats
that have a python-version tag pattern.  The source-distribution format
has none. -/
def DIST_VERSION_FORMATS : List String := ["bdist_wheel", "bdist_wininst", "bdist_egg"]

/-- The python-version derivation of `Package.__init__` (package.py
lines 133-137), parameterized by the outcome of matching the
format-specific pattern against the filename (the `re` engine with
named groups is external): `regexGroupMatch fmt fname` is `none` when
the pattern does not match, and `some g` when it matches with `pyver`
group value `g` (which is itself `None` when the group did not
participate).  If the format has a pattern, the tag starts as `any` and
is overwritten by the group value on a match; otherwise the tag keeps
its initial `None`. -/
def derivePythonVersion (regexGroupMatch : String → String → Option (Option String))
    (fileType fname : String) : Option String :=
  if fileType ∈ DIST_VERSION_FORMATS then
    match regexGroupMatch fileType fname with
    | some g => g
    | none => some "any"
  else none

/-! ## Persisting the store (`Database.commit`) -/

/-- The in-memory JSON document: the commit timestamp plus the tables
(whose representation `commit` does not inspect). -/
structure DbDoc (α : Type) where
  last_commit : String
  tables : α
deriving DecidableEq, Repr

/-- Outcome of `Path.write_text` on the serialized document.  An I/O
failure is an `OSError`, which always carries the `errno` and
`strerror` attributes the handler prints; any other exception lacks
them. -/
inductive WriteResult where
  | ok : WriteResult
  | ioError : Int → String → WriteResult
  | otherError : String → WriteResult
deriving DecidableEq, Repr

/-- Embeds `Database.commit` (database.py lines 131-139): stamp the current
time as `last_commit`, write the document, return `True`; on an
exception, print the `errno`/`strerror` attributes and return `False`.
For a non-OSError exception the handler itself raises
`AttributeError` while reading `errno`. -/
def commit {α : Type} (now : String) (write : DbDoc α → WriteResult) (d : DbDoc α) :
    DbDoc α × Except String Bool :=
  let d2 : DbDoc α := { d with last_commit := now }
  match write d2 with
  | WriteResult.ok => (d2, Except.ok true)
  | WriteResult.ioError _ _ => (d2, Except.ok false)
  | WriteResult.otherError _ => (d2, Except.error "AttributeError: errno")

/-! ## Supporting lemmas -/

theorem put_fresh_eq {α : Type} (tbl : Table α) (entry : α) {eid : Int} (h : eid < 0) :
    Database.put tbl eid entry
      = (tbl ++ [(pyStr (freshId tbl), entry)], ((freshId tbl : Nat) : Int)) := by
  rw [Database.put, if_pos h]
  show (dictInsert tbl (pyStr (freshId tbl)) entry, ((freshId tbl : Nat) : Int))
      = (tbl ++ [(pyStr (freshId tbl), entry)], ((freshId tbl : Nat) : Int))
  rw [dictInsert_fresh (freshId_spec tbl).1]

theorem latestFold_mem : ∀ (l : List ReleaseR) (cur : ReleaseR), latestFold cur l ∈ cur :: l := by
  intro l
  induction l with
  | nil => intro cur; exact List.mem_cons_self cur []
  | cons r rest ih =>
      intro cur
      rw [latestFold]
      by_cases h : strLtB cur.version r.version = true
      · rw [if_pos h]
        rcases List.mem_cons.mp (ih r) with h2 | h2
        · rw [h2]; exact List.mem_cons_of_mem cur (List.mem_cons_self r rest)
        · exact List.mem_cons_of_mem cur (List.mem_cons_of_mem r h2)
      · rw [if_neg h]
        rcases List.mem_cons.mp (ih cur) with h2 | h2
        · rw [h2]; exact List.mem_cons_self cur (r :: rest)
        · exact List.mem_cons_of_mem cur (List.mem_cons_of_mem r h2)

theorem latestFold_le : ∀ (l : List ReleaseR) (cur : ReleaseR),
    cur.version ≤ (latestFold cur l).version ∧
      ∀ r ∈ l, r.version ≤ (latestFold cur l).version := by
  intro l
  induction l with
  | nil =>
      intro cur
      exact ⟨le_refl _, fun r hr => absurd hr (List.not_mem_nil r)⟩
  | cons r rest ih =>
      intro cur
      rw [latestFold]
      by_cases h : strLtB cur.version r.version = true
      · rw [if_pos h]
        have hlt : cur.version < r.version := (strLtB_iff _ _).mp h
        rcases ih r with ⟨h1, h2⟩
        refine ⟨le_of_lt (lt_of_lt_of_le hlt h1), fun r2 hr2 => ?_⟩
        rcases List.mem_cons.mp hr2 with h3 | h3
        · rw [h3]; exact h1
        · exact h2 r2 h3
      · rw [if_neg h]
        have hge : r.version ≤ cur.version :=
          le_of_not_lt (fun hc => h ((strLtB_iff _ _).mpr hc))
        rcases ih cur with ⟨h1, h2⟩
        refine ⟨h1, fun r2 hr2 => ?_⟩
        rcases List.mem_cons.mp hr2 with h3 | h3
        · rw [h3]; exact le_trans hge h1
        · exact h2 r2 h3

theorem foldl_dictInsert_eq {β : Type} (f : ReleaseR → β) :
    ∀ (rs : List ReleaseR) (acc : Table β),
      (rs.map (fun r => r.version)).Nodup →
      (∀ r ∈ rs, r.version ∉ keys acc) →
      rs.foldl (fun m r => dictInsert m r.version (f r)) acc
        = acc ++ rs.map (fun r => (r.version, f r)) := by
  intro rs
  induction rs with
  | nil => intro acc h1 h2; simp
  | cons r rest ih =>
      intro acc hnd hfresh
      simp only [List.foldl_cons, List.map_cons]
      rw [dictInsert_fresh (hfresh r (List.mem_cons_self r rest))]
      have hndr : (rest.map (fun r2 => r2.version)).Nodup := by
        rw [List.map_cons, List.nodup_cons] at hnd
        exact hnd.2
      have hhd : r.version ∉ rest.map (fun r2 => r2.version) := by
        rw [List.map_cons, List.nodup_cons] at hnd
        exact hnd.1
      have hfr : ∀ r2 ∈ rest, r2.version ∉ keys (acc ++ [(r.version, f r)]) := by
        intro r2 hr2 hk
        rw [keys, List.map_append] at hk
        rcases List.mem_append.mp hk with hk1 | hk1
        · exact hfresh r2 (List.mem_cons_of_mem r hr2) hk1
        · have : r2.version = r.version := by
            simpa using hk1
          exact hhd (this ▸ List.mem_map.mpr ⟨r2, hr2, rfl⟩)
      rw [ih (acc ++ [(r.version, f r)]) hndr hfr, List.append_assoc]
      rfl

theorem dictGet_keyed_map {β : Type} (f : ReleaseR → β) :
    ∀ (rs : List ReleaseR) (r : ReleaseR),
      (rs.map (fun r2 => r2.version)).Nodup → r ∈ rs →
      dictGet (rs.map (fun r2 => (r2.version, f r2))) r.version = some (f r) := by
  intro rs
  induction rs with
  | nil => intro r _ h; cases h
  | cons hd rest ih =>
      intro r hnd hr
      rw [List.map_cons, List.nodup_cons] at hnd
      simp only [List.map_cons]
      rw [show dictGet ((hd.version, f hd) :: rest.map (fun r2 => (r2.version, f r2))) r.version
            = if hd.version = r.version then some (f hd)
              else dictGet (rest.map (fun r2 => (r2.version, f r2))) r.version from rfl]
      by_cases he : hd.version = r.version
      · rw [if_pos he]
        rcases List.mem_cons.mp hr with h1 | h1
        · rw [h1]
        · exact absurd (he ▸ List.mem_map.mpr ⟨r, h1, rfl⟩) hnd.1
      · rw [if_neg he]
        rcases List.mem_cons.mp hr with h1 | h1
        · exact absurd (h1 ▸ rfl) he
        · exact ih r hnd.2 h1

theorem validateFiletype_ok_mem {v : String} (h : validateFiletype v = Except.ok ()) :
    v ∈ filetypeAllowList := by
  by_contra hmem
  rw [validateFiletype, if_neg hmem] at h
  cases h

/-! ## Claim theorems -/

/-- C1: For an equality predicate, when the operand compiles as a
pattern the predicate holds on a string field exactly when a search for
the pattern succeeds inside the field value (some contiguous segment
matches); when the operand does not compile (an integer, or invalid
syntax) the predicate is exact value comparison - in particular two
integers compare exactly.  The pattern of the spec example compiles.
Ordering comparisons are plain value comparisons and never consult the
pattern compiler. -/
theorem C1_eq_regex_first_ordering_plain :
    (∀ (other : Val) (pat : RE), reCompile other = some pat → ∀ s : String,
        (TableAttr.eqCmp other (Val.str s) = Except.ok true ↔
          ∃ pre mid post, s.data = pre ++ mid ++ post ∧ RMatch pat mid))
    ∧ (∀ other v : Val, reCompile other = none →
        TableAttr.eqCmp other v = Except.ok (valEq v other))
    ∧ (∀ n m : Int, reCompile (Val.int n) = none ∧
        TableAttr.eqCmp (Val.int n) (Val.int m) = Except.ok (m == n))
    ∧ (∃ pat, reCompile (Val.str "ab.*c") = some pat)
    ∧ (∀ other v : Val,
        TableAttr.ltCmp other v = valLt v other ∧
        TableAttr.leCmp other v = valLe v other ∧
        TableAttr.gtCmp other v = valGt v other ∧
        TableAttr.geCmp other v = valGe v other) := by
  refine ⟨?_, ?_, ?_, ?_, ?_⟩
  · intro other pat hc s
    rw [TableAttr.eqCmp, hc]
    rw [show (Except.ok (reSearch pat s) = (Except.ok true : Except String Bool))
          ↔ reSearch pat s = true from by
        constructor
        · intro h; injection h
        · intro h; rw [h]]
    exact reSearch_iff pat s
  · intro other v h
    rw [TableAttr.eqCmp, h]
  · intro n m
    exact ⟨rfl, rfl⟩
  · exact ⟨RE.cat (RE.lit 'a')
      (RE.cat (RE.lit 'b') (RE.cat (RE.star RE.dot) (RE.cat (RE.lit 'c') RE.eps))), by decide⟩
  · intro other v
    exact ⟨rfl, rfl, rfl, rfl⟩

/-- Witness for C1: the pattern `ab` compiles and the predicate on the
field value `xaby` is the search semantics; the integer operand 3 does
not compile, so comparison against a string field is exact (and
false). -/
theorem C1_witness :
    (TableAttr.eqCmp (Val.str "ab") (Val.str "xaby") = Except.ok true ↔
      ∃ pre mid post, ("xaby" : String).data = pre ++ mid ++ post ∧
        RMatch (RE.cat (RE.lit 'a') (RE.cat (RE.lit 'b') RE.eps)) mid)
    ∧ TableAttr.eqCmp (Val.int 3) (Val.str "x")
        = Except.ok (valEq (Val.str "x") (Val.int 3)) :=
  ⟨C1_eq_regex_first_ordering_plain.1 (Val.str "ab")
      (RE.cat (RE.lit 'a') (RE.cat (RE.lit 'b') RE.eps)) (by decide) "xaby",
   C1_eq_regex_first_ordering_plain.2.1 (Val.int 3) (Val.str "x") (by decide)⟩

/-- Fixed project table used to refute C2 as stated: one project whose
name equals the package name `ab`, one whose name merely contains it. -/
def c2Table : Table ProjectR :=
  [("0", { name := "ab", created := "t0", documentation := "", total_size := 0 }),
   ("1", { name := "xaby", created := "t0", documentation := "", total_size := 0 })]

/-- C2 counterexample: exactly one stored Project has name equal to the
package name `ab`, yet resolution matches two records (the where-clause
is the regex-first equality predicate, and searching `ab` inside `xaby`
succeeds), so ingestion raises the duplicate-projects error instead of
reusing the one exact match. -/
theorem C2_counterexample :
    (c2Table.filter (fun kv => kv.2.name == "ab")).length = 1
    ∧ (matchedProjects c2Table "ab").map (fun kv => kv.2.name) = ["ab", "xaby"]
    ∧ resolveProject c2Table "ab" "t1"
        = Except.error "Multiple Projects found with name ab" := by
  decide

/-- C2 amended: project resolution matches the records whose stored
name satisfies the regex-first equality predicate for the package name
(a search when the name compiles as a pattern, exact comparison when it
does not); zero matches insert a fresh Project with `total_size` 0
under the smallest free decimal key, exactly one match is reused, and
more than one match is a fatal error. -/
theorem C2_amended :
    (∀ (tbl : Table ProjectR) (pkg : String) (pat : RE), parsePat pkg = some pat →
        ∀ kv, kv ∈ matchedProjects tbl pkg ↔
          kv ∈ tbl ∧ ∃ pre mid post, kv.2.name.data = pre ++ mid ++ post ∧ RMatch pat mid)
    ∧ (∀ (tbl : Table ProjectR) (pkg : String), parsePat pkg = none →
        ∀ kv, kv ∈ matchedProjects tbl pkg ↔ kv ∈ tbl ∧ kv.2.name = pkg)
    ∧ (∀ (tbl : Table ProjectR) (pkg now : String), matchedProjects tbl pkg = [] →
        ∃ n : Nat,
          resolveProject tbl pkg now = Except.ok
            (tbl ++ [(pyStr n,
              { name := pkg, created := now, documentation := "", total_size := 0 })], pyStr n)
          ∧ pyStr n ∉ keys tbl ∧ ∀ m < n, pyStr m ∈ keys tbl)
    ∧ (∀ (tbl : Table ProjectR) (pkg now : String) (kv : String × ProjectR),
        matchedProjects tbl pkg = [kv] →
        resolveProject tbl pkg now = Except.ok (tbl, kv.1))
    ∧ (∀ (tbl : Table ProjectR) (pkg now : String),
        (matchedProjects tbl pkg).length > 1 →
        resolveProject tbl pkg now
          = Except.error ("Multiple Projects found with name " ++ pkg)) := by
  refine ⟨?_, ?_, ?_, ?_, ?_⟩
  · intro tbl pkg pat hc kv
    rw [matchedProjects, Database.get, List.mem_filter]
    rw [show (eqCmpStr pkg kv.2.name = true) = (reSearch pat kv.2.name = true) from by
        rw [eqCmpStr, hc]]
    rw [reSearch_iff]
  · intro tbl pkg hc kv
    rw [matchedProjects, Database.get, List.mem_filter]
    rw [show (eqCmpStr pkg kv.2.name = true) = (kv.2.name == pkg) from by
        rw [eqCmpStr, hc]]
    rw [beq_iff_eq]
  · intro tbl pkg now hm
    refine ⟨freshId tbl, ?_, (freshId_spec tbl).1, (freshId_spec tbl).2⟩
    rw [resolveProject]
    simp only [hm, List.length_nil, if_pos rfl]
    rw [put_fresh_eq tbl _ (by decide : (-1 : Int) < 0)]
    simp [Int.toNat_natCast]
  · intro tbl pkg now kv hm
    rw [resolveProject]
    simp only [hm, List.length_cons, List.length_nil]
    rfl
  · intro tbl pkg now hm
    rw [resolveProject]
    have h0 : ¬(matchedProjects tbl pkg).length = 0 := by omega
    simp only [if_neg h0, if_pos hm]

/-- Witness for C2 (amended): a one-project store whose single name
matches exactly is reused, returning the store unchanged together with
the stored key. -/
theorem C2_witness :
    resolveProject [("4", { name := "zz", created := "t0", documentation := "", total_size := 3 })]
        "zz" "t1"
      = Except.ok ([("4", { name := "zz", created := "t0", documentation := "", total_size := 3 })], "4") :=
  C2_amended.2.2.2.1 _ "zz" "t1"
    ("4", { name := "zz", created := "t0", documentation := "", total_size := 3 }) (by decide)

/-- C3: inserting a record with unset id assigns the smallest
non-negative integer whose decimal string is not among the table keys,
and appends the record under exactly that decimal-string key. -/
theorem C3_put_assigns_smallest_free_key {α : Type} :
    ∀ (tbl : Table α) (entry : α) (eid : Int), eid < 0 →
      ∃ n : Nat,
        Database.put tbl eid entry = (tbl ++ [(pyStr n, entry)], (n : Int))
        ∧ pyStr n ∉ keys tbl ∧ ∀ m < n, pyStr m ∈ keys tbl := by
  intro tbl entry eid h
  exact ⟨freshId tbl, put_fresh_eq tbl entry h, (freshId_spec tbl).1, (freshId_spec tbl).2⟩

/-- Witness for C3: on keys 0, 1 and 3 the assigned id is 2 and the new
record is stored under the key 2. -/
theorem C3_witness :
    Database.put ([("0", 10), ("1", 11), ("3", 13)] : Table Nat) (-1) 99
      = ([("0", 10), ("1", 11), ("3", 13), ("2", 99)], 2)
    ∧ ∃ n : Nat,
        Database.put ([("0", 10), ("1", 11), ("3", 13)] : Table Nat) (-1) 99
          = ([("0", 10), ("1", 11), ("3", 13)] ++ [(pyStr n, 99)], (n : Int))
        ∧ pyStr n ∉ keys ([("0", 10), ("1", 11), ("3", 13)] : Table Nat)
        ∧ ∀ m < n, pyStr m ∈ keys ([("0", 10), ("1", 11), ("3", 13)] : Table Nat) :=
  ⟨by decide, C3_put_assigns_smallest_free_key _ 99 (-1) (by decide)⟩

/-- C4: the latest-release folds keep the release whose version string
is greatest under the plain lexicographic string order; on the version
set 2.9 / 2.10 both the page generator fold and the JSON generator fold
select 2.9, because 2.10 is lexicographically smaller than 2.9 (the
ordering is not semantic-version aware). -/
theorem C4_latest_by_plain_string_order :
    (∀ (rs : List ReleaseR) (m : ReleaseR), pagesLatest rs = some m →
        m ∈ rs ∧ ∀ r ∈ rs, r.version ≤ m.version)
    ∧ pagesLatest [⟨0, 0, "2.9", false⟩, ⟨1, 0, "2.10", false⟩]
        = some ⟨0, 0, "2.9", false⟩
    ∧ jsonLatest [⟨0, 0, "2.9", false⟩, ⟨1, 0, "2.10", false⟩]
        = some ⟨0, 0, "2.9", false⟩
    ∧ ("2.10" : String) < "2.9" := by
  refine ⟨?_, by decide, by decide, (strLtB_iff "2.10" "2.9").mp (by decide)⟩
  intro rs m hm
  match rs, hm with
  | r0 :: rest, hm =>
      rw [pagesLatest] at hm
      injection hm with hm
      constructor
      · rcases List.mem_cons.mp (hm ▸ latestFold_mem (r0 :: rest) r0) with h | h
        · rw [h]; exact List.mem_cons_self r0 rest
        · exact h
      · intro r hr
        exact hm ▸ (latestFold_le (r0 :: rest) r0).2 r hr

/-- Witness for C4: the fold result on the 2.9 / 2.10 list is a member
and every version in the list is at most its version. -/
theorem C4_witness :
    (⟨0, 0, "2.9", false⟩ : ReleaseR) ∈ [⟨0, 0, "2.9", false⟩, ⟨1, 0, "2.10", false⟩]
    ∧ ∀ r ∈ [(⟨0, 0, "2.9", false⟩ : ReleaseR), ⟨1, 0, "2.10", false⟩],
        r.version ≤ (⟨0, 0, "2.9", false⟩ : ReleaseR).version :=
  C4_latest_by_plain_string_order.1 [⟨0, 0, "2.9", false⟩, ⟨1, 0, "2.10", false⟩]
    ⟨0, 0, "2.9", false⟩ (by decide)

/-- C5: a file name is on the simple-index page of a project exactly when it
belongs to a non-yanked release of the project, while the JSON
`releases` object maps every version of the project - yanked releases
included - to the file list of that release. -/
theorem C5_simple_excludes_yanked_json_includes :
    (∀ (st : GenStore) (pid : Int) (fname : String),
        fname ∈ simpleFileLinks st pid ↔
          ∃ r, r ∈ releasesOf st pid ∧ r.yanked = false ∧
            ∃ f, f ∈ filesOf st r.id ∧ f.name = fname)
    ∧ (∀ (st : GenStore) (pid : Int) (r : ReleaseR),
        ((releasesOf st pid).map (fun r2 => r2.version)).Nodup →
        r ∈ releasesOf st pid →
        dictGet (jsonReleasesMap st pid) r.version = some (filesOf st r.id)) := by
  constructor
  · intro st pid fname
    rw [simpleFileLinks, List.mem_flatMap]
    constructor
    · rintro ⟨r, hr, hf⟩
      cases hy : r.yanked with
      | true => rw [if_pos (by rw [hy])] at hf; cases hf
      | false =>
          rw [if_neg (by rw [hy]; exact Bool.false_ne_true)] at hf
          rcases List.mem_map.mp hf with ⟨f, hfm, hfn⟩
          exact ⟨r, hr, hy, f, hfm, hfn⟩
    · rintro ⟨r, hr, hy, f, hfm, hfn⟩
      refine ⟨r, hr, ?_⟩
      rw [if_neg (by rw [hy]; exact Bool.false_ne_true)]
      exact List.mem_map.mpr ⟨f, hfm, hfn⟩
  · intro st pid r hnd hr
    rw [jsonReleasesMap,
      foldl_dictInsert_eq (fun r2 => filesOf st r2.id) (releasesOf st pid) [] hnd
        (fun r2 _ h => absurd h (List.not_mem_nil _)),
      List.nil_append]
    exact dictGet_keyed_map (fun r2 => filesOf st r2.id) (releasesOf st pid) r hnd hr

/-- Store used in the C5 witness: version 1.0 live, version 2.0
yanked, one file each. -/
def c5Store : GenStore :=
  { releases := [⟨0, 0, "1.0", false⟩, ⟨1, 0, "2.0", true⟩],
    files :=
      [{ release_id := 0, name := "demo-1.0.tar.gz", path := "files/demo-1.0.tar.gz",
         python_version := some "source", package_type := "sdist", comment_text := none,
         size := 5, has_signature := false, md5_digest := none, sha256_digest := none,
         blake2_256_digest := none, upload_time := "t" },
       { release_id := 1, name := "demo-2.0.tar.gz", path := "files/demo-2.0.tar.gz",
         python_version := some "source", package_type := "sdist", comment_text := none,
         size := 7, has_signature := false, md5_digest := none, sha256_digest := none,
         blake2_256_digest := none, upload_time := "t" }] }

/-- Witness for C5: the file of the yanked 2.0 release is absent from the
simple index (its only route would be through a non-yanked release) yet
its version is present in the JSON releases object with its file
list. -/
theorem C5_witness :
    (("demo-2.0.tar.gz" ∈ simpleFileLinks c5Store 0) ↔
      ∃ r, r ∈ releasesOf c5Store 0 ∧ r.yanked = false ∧
        ∃ f, f ∈ filesOf c5Store r.id ∧ f.name = "demo-2.0.tar.gz")
    ∧ dictGet (jsonReleasesMap c5Store 0) "2.0" = some (filesOf c5Store 1) :=
  ⟨C5_simple_excludes_yanked_json_includes.1 c5Store 0 "demo-2.0.tar.gz",
   C5_simple_excludes_yanked_json_includes.2 c5Store 0 ⟨1, 0, "2.0", true⟩
     (by decide) (by decide)⟩

/-- C6: after the per-field validators, the cross-field rules reject
any form whose package type is not sdist when the python-version tag is
blank; accept an sdist form with no tag, auto-filling the tag `source`
(provided the remaining modelled validators pass and a digest is
present); and reject an sdist form whose tag is present, non-empty and
different from `source`. -/
theorem C6_cross_field_pyversion_rules :
    (∀ m : MetadataFormCore, m.filetype ≠ "sdist" → isBlank m.pyversion = true →
        ∃ e, validateFormCore m = Except.error e)
    ∧ (∀ m : MetadataFormCore, m.filetype = "sdist" → m.pyversion = none →
        validateDigestField "Use a valid, hex-encoded, SHA256 message digest." m.sha256_digest
          = Except.ok () →
        validateDigestField "Use a valid, hex-encoded, BLAKE2 message digest." m.blake2_256_digest
          = Except.ok () →
        ¬(isBlank m.md5_digest = true ∧ isBlank m.sha256_digest = true) →
        validateFormCore m = Except.ok { m with pyversion := some "source" })
    ∧ (∀ (m : MetadataFormCore) (py : String), m.filetype = "sdist" →
        m.pyversion = some py → py ≠ "" → py ≠ "source" →
        ∃ e, validateFormCore m = Except.error e) := by
  refine ⟨?_, ?_, ?_⟩
  · intro m hft hpy
    rw [validateFormCore]
    cases hv : validateFiletype m.filetype with
    | error e => exact ⟨e, rfl⟩
    | ok u =>
        cases u
        cases hs : validateDigestField "Use a valid, hex-encoded, SHA256 message digest." m.sha256_digest with
        | error e => exact ⟨e, rfl⟩
        | ok u =>
            cases u
            cases hb : validateDigestField "Use a valid, hex-encoded, BLAKE2 message digest." m.blake2_256_digest with
            | error e => exact ⟨e, rfl⟩
            | ok u =>
                cases u
                have hmem := validateFiletype_ok_mem hv
                have hne : m.filetype ≠ "" := by
                  intro h
                  rw [h] at hmem
                  simp [filetypeAllowList] at hmem
                refine ⟨"Python version is required for binary distribution uploads.", ?_⟩
                show postInitCross m
                    = Except.error "Python version is required for binary distribution uploads."
                rw [postInitCross, if_pos ⟨hne, hft, hpy⟩]
  · intro m hft hpy hs hb hd
    have hv : validateFiletype m.filetype = Except.ok () := by rw [hft]; decide
    rw [validateFormCore, hv, hs, hb]
    show postInitCross m = Except.ok { m with pyversion := some "source" }
    rw [postInitCross]
    rw [if_neg (by rintro ⟨h1, h2, h3⟩; exact h2 hft)]
    have hstep : pyversionStep m = Except.ok { m with pyversion := some "source" } := by
      rw [pyversionStep, if_pos hft, if_pos (by rw [hpy]; rfl)]
    rw [hstep]
    show digestPresentCheck { m with pyversion := some "source" }
        = Except.ok { m with pyversion := some "source" }
    rw [digestPresentCheck, if_neg hd]
  · intro m py hft hpy hne hsrc
    have hv : validateFiletype m.filetype = Except.ok () := by rw [hft]; decide
    rw [validateFormCore, hv]
    cases hs : validateDigestField "Use a valid, hex-encoded, SHA256 message digest." m.sha256_digest with
    | error e => exact ⟨e, rfl⟩
    | ok u =>
        cases u
        cases hb : validateDigestField "Use a valid, hex-encoded, BLAKE2 message digest." m.blake2_256_digest with
        | error e => exact ⟨e, rfl⟩
        | ok u =>
            cases u
            refine ⟨"Use source as Python version for an sdist.", ?_⟩
            show postInitCross m = Except.error "Use source as Python version for an sdist."
            rw [postInitCross]
            rw [if_neg (by rintro ⟨h1, h2, h3⟩; exact h2 hft)]
            have hstep : pyversionStep m
                = Except.error "Use source as Python version for an sdist." := by
              rw [pyversionStep, if_pos hft]
              rw [if_neg (by rw [hpy]; simp [isBlank]; exact hne)]
              rw [if_pos (by rw [hpy]; simpa using hsrc)]
            rw [hstep]

/-- Witness for C6: a wheel form without a tag is rejected; an sdist
form without a tag and with an MD5 digest is accepted with the tag
auto-filled to source; an sdist form with tag 3.9 is rejected. -/
theorem C6_witness :
    (∃ e, validateFormCore ⟨none, "bdist_wheel", some "x", none, none⟩ = Except.error e)
    ∧ validateFormCore ⟨none, "sdist", some "x", none, none⟩
        = Except.ok ⟨some "source", "sdist", some "x", none, none⟩
    ∧ (∃ e, validateFormCore ⟨some "3.9", "sdist", some "x", none, none⟩ = Except.error e) :=
  ⟨C6_cross_field_pyversion_rules.1 ⟨none, "bdist_wheel", some "x", none, none⟩
      (by decide) (by decide),
   C6_cross_field_pyversion_rules.2.1 ⟨none, "sdist", some "x", none, none⟩
      rfl rfl (by decide) (by decide) (by decide),
   C6_cross_field_pyversion_rules.2.2 ⟨some "3.9", "sdist", some "x", none, none⟩
      "3.9" rfl rfl (by decide) (by decide)⟩

/-- C7: when the per-project ceiling check of step 8 fails, the raise
happens after the File record has been inserted, the bytes copied and
the project size increased - none of which is rolled back: the
resulting store still holds the new File under its fresh key, the
copied artifact path and the enlarged `total_size`. -/
theorem C7_no_rollback_on_project_size_error :
    ∀ (st : IngestStore) (pk : String) (p : ProjectR) (f : FileR),
      dictGet st.projects pk = some p →
      p.total_size + f.size > MAX_PROJECT_SIZE →
      (ingestFileTail st pk f).2 = Except.error "Project is now too large"
      ∧ (ingestFileTail st pk f).1.files = st.files ++ [(pyStr (freshId st.files), f)]
      ∧ f.path ∈ (ingestFileTail st pk f).1.copied
      ∧ dictGet (ingestFileTail st pk f).1.projects pk
          = some { p with total_size := p.total_size + f.size } := by
  intro st pk p f hp hsz
  have hput : (Database.put st.files (-1) f).1 = st.files ++ [(pyStr (freshId st.files), f)] := by
    rw [put_fresh_eq st.files f (by decide : (-1 : Int) < 0)]
  have hstep : ingestFileTail st pk f =
      ({ projects := dictInsert st.projects pk { p with total_size := p.total_size + f.size },
         files := st.files ++ [(pyStr (freshId st.files), f)],
         copied := st.copied ++ [f.path] },
       Except.error "Project is now too large") := by
    rw [ingestFileTail, hput]
    rw [show dictGet st.projects pk = some p from hp]
    dsimp only
    rw [if_pos hsz]
  rw [hstep]
  refine ⟨rfl, rfl, ?_, ?_⟩
  · exact List.mem_append.mpr (Or.inr (List.mem_singleton.mpr rfl))
  · exact dictGet_insert_self st.projects pk _

/-- Witness for C7: a project already at the ceiling ingests a 1-byte
file; the error is raised with the file record, the copied path and the
increased size still in the store. -/
theorem C7_witness :
    (ingestFileTail
        { projects := [("0", { name := "demo", created := "t", documentation := "",
                               total_size := MAX_PROJECT_SIZE })],
          files := [], copied := [] } "0"
        { release_id := 0, name := "demo-1.0.tar.gz", path := "files/demo-1.0.tar.gz",
          python_version := some "source", package_type := "sdist", comment_text := none,
          size := 1, has_signature := false, md5_digest := none, sha256_digest := none,
          blake2_256_digest := none, upload_time := "t" }).2
      = Except.error "Project is now too large"
    ∧ (ingestFileTail
        { projects := [("0", { name := "demo", created := "t", documentation := "",
                               total_size := MAX_PROJECT_SIZE })],
          files := [], copied := [] } "0"
        { release_id := 0, name := "demo-1.0.tar.gz", path := "files/demo-1.0.tar.gz",
          python_version := some "source", package_type := "sdist", comment_text := none,
          size := 1, has_signature := false, md5_digest := none, sha256_digest := none,
          blake2_256_digest := none, upload_time := "t" }).1.files
      = [] ++ [(pyStr (freshId ([] : Table FileR)),
          { release_id := 0, name := "demo-1.0.tar.gz", path := "files/demo-1.0.tar.gz",
            python_version := some "source", package_type := "sdist", comment_text := none,
            size := 1, has_signature := false, md5_digest := none, sha256_digest := none,
            blake2_256_digest := none, upload_time := "t" })]
    ∧ "files/demo-1.0.tar.gz" ∈ (ingestFileTail
        { projects := [("0", { name := "demo", created := "t", documentation := "",
                               total_size := MAX_PROJECT_SIZE })],
          files := [], copied := [] } "0"
        { release_id := 0, name := "demo-1.0.tar.gz", path := "files/demo-1.0.tar.gz",
          python_version := some "source", package_type := "sdist", comment_text := none,
          size := 1, has_signature := false, md5_digest := none, sha256_digest := none,
          blake2_256_digest := none, upload_time := "t" }).1.copied
    ∧ dictGet (ingestFileTail
        { projects := [("0", { name := "demo", created := "t", documentation := "",
                               total_size := MAX_PROJECT_SIZE })],
          files := [], copied := [] } "0"
        { release_id := 0, name := "demo-1.0.tar.gz", path := "files/demo-1.0.tar.gz",
          python_version := some "source", package_type := "sdist", comment_text := none,
          size := 1, has_signature := false, md5_digest := none, sha256_digest := none,
          blake2_256_digest := none, upload_time := "t" }).1.projects "0"
      = some { name := "demo", created := "t", documentation := "",
               total_size := MAX_PROJECT_SIZE + 1 } :=
  C7_no_rollback_on_project_size_error
    { projects := [("0", { name := "demo", created := "t", documentation := "",
                           total_size := MAX_PROJECT_SIZE })],
      files := [], copied := [] } "0"
    { name := "demo", created := "t", documentation := "", total_size := MAX_PROJECT_SIZE }
    { release_id := 0, name := "demo-1.0.tar.gz", path := "files/demo-1.0.tar.gz",
      python_version := some "source", package_type := "sdist", comment_text := none,
      size := 1, has_signature := false, md5_digest := none, sha256_digest := none,
      blake2_256_digest := none, upload_time := "t" }
    (by decide) (by decide)

/-- C8 counterexample: for a source distribution - a format with no
tag pattern - the derived python-version tag is `None`, not the
sentinel `any` the claim asserts (the `any` initialization only happens
inside the branch for formats that have a pattern). -/
theorem C8_counterexample :
    distFileType "pkg-1.0.tar.gz" = some "sdist"
    ∧ derivePythonVersion (fun _ _ => none) "sdist" "pkg-1.0.tar.gz" = none
    ∧ derivePythonVersion (fun _ _ => none) "sdist" "pkg-1.0.tar.gz" ≠ some "any" := by
  decide

/-- C8 amended: for a format with a tag pattern, the tag is the named
value of the named group when the pattern matches and the sentinel `any` when it
does not; for a format with no tag pattern (the source distribution)
the tag stays absent (`None`), not `any`. -/
theorem C8_amended :
    ∀ (rm : String → String → Option (Option String)) (ft fname : String),
      (ft ∈ DIST_VERSION_FORMATS →
        (rm ft fname = none → derivePythonVersion rm ft fname = some "any")
        ∧ (∀ g, rm ft fname = some g → derivePythonVersion rm ft fname = g))
      ∧ (ft ∉ DIST_VERSION_FORMATS → derivePythonVersion rm ft fname = none) := by
  intro rm ft fname
  constructor
  · intro hmem
    constructor
    · intro hnone
      rw [derivePythonVersion, if_pos hmem, hnone]
    · intro g hg
      rw [derivePythonVersion, if_pos hmem, hg]
  · intro hmem
    rw [derivePythonVersion, if_neg hmem]

/-- Witness for C8 (amended): with a matcher that matches the installer
pattern with group value 3.9, the derived tag is 3.9; with one that
does not match, the tag is the sentinel. -/
theorem C8_witness :
    derivePythonVersion
        (fun ft _ => if ft = "bdist_wininst" then some (some "3.9") else none)
        "bdist_wininst" "demo-py3.9.exe" = some "3.9"
    ∧ derivePythonVersion (fun _ _ => none) "bdist_wheel" "demo.whl" = some "any" :=
  ⟨((C8_amended (fun ft _ => if ft = "bdist_wininst" then some (some "3.9") else none)
        "bdist_wininst" "demo-py3.9.exe").1 (by decide)).2 (some "3.9") rfl,
   ((C8_amended (fun _ _ => none) "bdist_wheel" "demo.whl").1 (by decide)).1 rfl⟩

/-- C9: for every loaded document, `commit` stamps the supplied time as
`last_commit` before writing; a successful write returns `True` and any
I/O error (an `OSError`, which always carries the attributes the
handler reads) is caught and reported as `False` - no exception escapes
on the I/O paths. -/
theorem C9_commit_reports_io_failure :
    ∀ (α : Type) (now : String) (write : DbDoc α → WriteResult) (d : DbDoc α),
      (commit now write d).1 = { d with last_commit := now }
      ∧ (write { d with last_commit := now } = WriteResult.ok →
          (commit now write d).2 = Except.ok true)
      ∧ (∀ e s, write { d with last_commit := now } = WriteResult.ioError e s →
          (commit now write d).2 = Except.ok false) := by
  intro α now write d
  refine ⟨?_, ?_, ?_⟩
  · rw [commit]
    cases write { d with last_commit := now } <;> rfl
  · intro h
    rw [commit, h]
  · intro e s h
    rw [commit, h]

/-- Witness for C9: a write that fails with a permission error makes
`commit` return `False` with the timestamp stamped. -/
theorem C9_witness :
    (commit "t1" (fun _ => WriteResult.ioError 13 "denied") (⟨"t0", 7⟩ : DbDoc Nat)).1
        = ⟨"t1", 7⟩
    ∧ (commit "t1" (fun _ => WriteResult.ioError 13 "denied") (⟨"t0", 7⟩ : DbDoc Nat)).2
        = Except.ok false :=
  ⟨(C9_commit_reports_io_failure Nat "t1" (fun _ => WriteResult.ioError 13 "denied") ⟨"t0", 7⟩).1,
   (C9_commit_reports_io_failure Nat "t1" (fun _ => WriteResult.ioError 13 "denied") ⟨"t0", 7⟩).2.2
     13 "denied" rfl⟩

/-- C10: the inspector accepts the `.exe` suffix as the installer
format `bdist_wininst`, but that type is outside the filetype
allow-list, so every metadata form carrying it fails validation with
the known-file-type error - no installer artifact can pass metadata
validation. -/
theorem C10_wininst_inspectable_never_validates :
    distFileType "demo-1.0.win32-py3.9.exe" = some "bdist_wininst"
    ∧ "bdist_wininst" ∉ filetypeAllowList
    ∧ (∀ m : MetadataFormCore, m.filetype = "bdist_wininst" →
        validateFormCore m = Except.error "Use a known file type.") := by
  refine ⟨by decide, by decide, ?_⟩
  intro m hm
  have hv : validateFiletype m.filetype = Except.error "Use a known file type." := by
    rw [hm]; decide
  rw [validateFormCore, hv]

/-- Witness for C10: a form with the installer package type is
rejected. -/
theorem C10_witness :
    validateFormCore ⟨some "3.9", "bdist_wininst", some "x", none, none⟩
      = Except.error "Use a known file type." :=
  C10_wininst_inspectable_never_validates.2.2
    ⟨some "3.9", "bdist_wininst", some "x", none, none⟩ rfl

end Warehub
